import Mathlib

/-!
Verification development for the `secblk` repository.

This file gives a shallow embedding of the core of `secblk/tables.py`
(value parsers and the `Table` selection/parsing/iteration engine) and
`secblk/funds.py` (the `Fund` record: construction with ISIN validation,
and the merge operator `Fund.__add__`), and proves or refutes the frozen
claims about them.

Modelling conventions:
- Python strings are Lean `String`/`List Char`; the model covers ASCII
  digits and whitespace (the repository's data is ASCII).
- Python `float` values are modelled as exact rationals `ℚ`; the concrete
  values used in evaluations are small integers and dyadic rationals on
  which binary64 arithmetic is exact.
- Fallible Python code returns `Option`/`Except`; a raised exception is an
  `Except.error` carrying the exception kind and message.
-/

namespace Secblk

/-! ### Python character and string primitives -/

/-- ASCII whitespace stripped by Python's `str.strip` / `int(...)`. -/
def pyWhitespace (c : Char) : Bool :=
  c = ' ' || c = '\t' || c = '\n' || c = '\r' || c = '\x0b' || c = '\x0c'

/-- Python `str.strip()` on an ASCII string: drop whitespace at both ends. -/
def stripPy (s : List Char) : List Char :=
  ((s.dropWhile pyWhitespace).reverse.dropWhile pyWhitespace).reverse

/-- Numeric value of an ASCII digit character. -/
def digitVal (c : Char) : Nat := c.toNat - '0'.toNat

/-- The digit part accepted by Python `int` (PEP 515): digits optionally
separated by single underscores, each underscore between two digits. -/
def validDigitGroup : List Char → Bool
  | [] => false
  | [c] => c.isDigit
  | c :: c2 :: rest =>
    if c2 = '_' then c.isDigit && validDigitGroup rest
    else c.isDigit && validDigitGroup (c2 :: rest)

/-- Value of a digit group, ignoring underscores. -/
def digitsVal (s : List Char) : Nat :=
  (s.filter Char.isDigit).foldl (fun a c => 10 * a + digitVal c) 0

/-- `int(text)` after stripping whitespace: an optional single leading sign
followed by a valid digit group. -/
def pyIntCore (t : List Char) : Option Int :=
  match t with
  | [] => none
  | c :: rest =>
    if c = '+' then (if validDigitGroup rest then some ((digitsVal rest : Int)) else none)
    else if c = '-' then (if validDigitGroup rest then some (-(digitsVal rest : Int)) else none)
    else if validDigitGroup (c :: rest) then some ((digitsVal (c :: rest) : Int)) else none

/-- Python `int(text)` on an ASCII string: `None` models a raised
`ValueError`. -/
def pyInt (s : List Char) : Option Int := pyIntCore (stripPy s)

/-- Is the character at index `i` an ASCII digit? (`False` out of range.) -/
def isDigitAt (s : List Char) (i : Nat) : Bool :=
  match s[i]? with
  | some c => c.isDigit
  | none => false

/-- Does `re.sub(r"(?<=\d)[SEP](?=\d{3})", "", text)` delete the character
at index `i`?  The lookbehind and lookahead are evaluated on the original
string: the character must be the separator, preceded by a digit and
followed by at least three digits. -/
def sepMatch (sep : Char) (s : List Char) (i : Nat) : Bool :=
  (s[i]? = some sep : Bool) &&
  (match i with
   | 0 => false
   | j + 1 => isDigitAt s j) &&
  isDigitAt s (i + 1) && isDigitAt s (i + 2) && isDigitAt s (i + 3)

/-- The thousand-separator substitution of `IntParser.value` and
`FloatParser.value`: remove every separator occurrence the regex matches. -/
def stripThousandSep (sep : Char) (s : List Char) : List Char :=
  (s.enum.filter (fun p => !sepMatch sep s p.1)).map Prod.snd

/-! ### `IntParser` (tables.py) -/

/-- `IntParser`: configured with an optional thousand separator.  (The
Python attribute holds `None` or a one-character string; an empty string
is falsy, like `None`, so `Option Char` covers the configurations.) -/
structure IntParser where
  thousand_sep : Option Char

/-- `IntParser.value`: strip grouped thousand separators when one is
configured, then parse with Python `int`.  `none` models the raised
`ValueError`. -/
def IntParser.value (p : IntParser) (text : String) : Option Int :=
  match p.thousand_sep with
  | some sep => pyInt (stripThousandSep sep text.toList)
  | none => pyInt text.toList

/-! ### Values, exceptions, parser objects -/

/-- A typed cell value as produced by a parser's `value` method. -/
inductive PyVal where
  | str (s : String)
  | int (n : Int)
  | float (q : ℚ)
deriving DecidableEq, Repr

/-- The Python exceptions the modelled code raises. -/
inductive PyErr where
  | typeError (msg : String)
  | valueError (msg : String)
  | indexError
  | keyError
deriving DecidableEq, Repr

/-- A parser object is its `value` method: any `Parser` subclass maps a
cell string to a typed value or raises. -/
def ParserFun : Type := String → Except PyErr PyVal

/-- The base `Parser` class: returns the text unchanged, never fails. -/
def parserId : ParserFun := fun text => .ok (.str text)

/-- An `IntParser` object as a parser function; failure is the
`ValueError` raised by `int`. -/
def intParserFun (p : IntParser) : ParserFun := fun text =>
  match p.value text with
  | some n => .ok (.int n)
  | none => .error (.valueError "invalid literal for int() with base 10")

/-! ### Python dicts as insertion-ordered association lists

The dicts the code manipulates (`selected`, `parsers`) have unique keys;
assignment overwrites an existing key in place and appends a new key. -/

/-- Python `d[k] = v`. -/
def dictInsert {α β : Type} [DecidableEq α] : List (α × β) → α → β → List (α × β)
  | [], k, v => [(k, v)]
  | p :: d, k, v => if p.1 = k then (k, v) :: d else p :: dictInsert d k v

/-- Python `d.get(k)` / `d[k]` lookup. -/
def dictGet? {α β : Type} [DecidableEq α] (d : List (α × β)) (k : α) : Option β :=
  match d with
  | [] => none
  | p :: d => if p.1 = k then some p.2 else dictGet? d k

/-- Python `k in d`. -/
def dictHasKey {α β : Type} [DecidableEq α] (d : List (α × β)) (k : α) : Bool :=
  match d with
  | [] => false
  | p :: d => p.1 = k || dictHasKey d k

/-- A dict built from a list of key/value pairs (a dict comprehension):
later pairs overwrite earlier ones with the same key. -/
def dictOf {α β : Type} [DecidableEq α] (l : List (α × β)) : List (α × β) :=
  l.foldl (fun d p => dictInsert d p.1 p.2) []

/-- A dict comprehension evaluated left to right where an entry may raise:
the first raise aborts the whole comprehension (used by `Table.select`). -/
def mapOption {α β : Type} (f : α → Option β) : List α → Option (List β)
  | [] => some []
  | a :: l =>
    match f a with
    | some b => (mapOption f l).map (fun r => b :: r)
    | none => none

/-- Same, for a comprehension whose entries may raise a `PyErr` (used by
`Table.__next__`). -/
def mapExcept {α β : Type} (f : α → Except PyErr β) : List α → Except PyErr (List β)
  | [] => .ok []
  | a :: l =>
    match f a with
    | .ok b => (mapExcept f l).map (fun r => b :: r)
    | .error e => .error e

/-! ### `TableSpec` and `Table` (tables.py) -/

/-- `TableSpec`: canonical label → required source column name, plus the
optional list of columns that must exist but are dropped. -/
structure TableSpec where
  columns : List (String × String)
  drop : Option (List String)

/-- The mutable state of a `Table` object: the construction-time header and
raw rows, and the current selection and parser assignment.  (A freshly
constructed table holds `dict(enumerate(header))` in `selected`, which is
integer-keyed; every claim concerns tables after a `select`, whose state
this structure represents, and the theorems quantify over arbitrary
selection states.) -/
structure Table where
  _header : List String
  _content : List (List String)
  selected : List (String × Nat)
  parsers : List (Nat × ParserFun)

/-- Python `list.index`: the index of the first occurrence, or a raised
`ValueError` (`none`). -/
def listIndex (l : List String) (x : String) : Option Nat :=
  l.findIdx? (fun c => c = x)

/-- `Table.select`: resolve every column of the spec to its index in the
header.  If any column is missing, the comprehension raises before the
assignment, so the state is unchanged and the call returns `False`.  On
resolution the parsers are reset to the base `Parser`; the returned flag
also requires every `drop` column to exist in the header. -/
def Table.select (t : Table) (spec : TableSpec) : Bool × Table :=
  match mapOption (fun lc => (listIndex t._header lc.2).map (fun i => (lc.1, i))) spec.columns with
  | none => (false, t)
  | some sel =>
    let selected := dictOf sel
    let parsers := dictOf (selected.map (fun li => (li.2, parserId)))
    (match spec.drop with
     | none => true
     | some d => d.all (fun c => t._header.contains c),
     { t with selected := selected, parsers := parsers })

/-- `Table.parse_with`: attach parsers to selected labels.  When not
strict, unknown labels are filtered out first; when strict, any unknown
label makes the call return `False` before any assignment. -/
def Table.parse_with (t : Table) (ps : List (String × ParserFun)) (strict : Bool) :
    Bool × Table :=
  let ps := if strict then ps else ps.filter (fun lp => dictHasKey t.selected lp.1)
  if strict && ps.any (fun lp => !dictHasKey t.selected lp.1) then (false, t)
  else
    (true,
     { t with parsers := ps.foldl (fun d lp =>
         match dictGet? t.selected lp.1 with
         | some i => dictInsert d i lp.2
         | none => d) t.parsers })

/-- One row of `Table.__next__`: the row dict `{label: parser(cell)}` built
in selection order; the first raised exception aborts the row. -/
def parseRow (t : Table) (row : List String) : Except PyErr (List (String × PyVal)) :=
  mapExcept (fun li =>
    match dictGet? t.parsers li.2 with
    | none => .error .keyError
    | some p =>
      match row[li.2]? with
      | none => .error .indexError
      | some cell => (p cell).map (fun v => (li.1, v))) t.selected

/-- Full iteration of `Table.__next__` over the remaining rows: a row whose
parse raises `ValueError` is logged and skipped; any other exception
propagates out of the iteration. -/
def iterFrom (t : Table) : List (List String) → Except PyErr (List (List (String × PyVal)))
  | [] => .ok []
  | row :: rest =>
    match parseRow t row with
    | .ok d => (iterFrom t rest).map (fun l => d :: l)
    | .error (.valueError _) => iterFrom t rest
    | .error e => .error e

/-- A complete traversal of the table (`__iter__` restarts at row 0). -/
def Table.iterate (t : Table) : Except PyErr (List (List (String × PyVal))) :=
  iterFrom t t._content

/-! ### `Fund` (funds.py) -/

/-- Exact difference on the rational model of floats (written with
`mkRat` so that the kernel can evaluate concrete instances). -/
def ratSub (a b : ℚ) : ℚ := mkRat (a.num * (b.den : Int) - b.num * (a.den : Int)) (a.den * b.den)

/-- Exact product on the rational model of floats. -/
def ratMul (a b : ℚ) : ℚ := mkRat (a.num * b.num) (a.den * b.den)

/-- `abs` on the rational model of floats. -/
def ratAbs (q : ℚ) : ℚ := if Rat.blt q (mkRat 0 1) then Rat.neg q else q

/-- Binary `max` on the rational model of floats. -/
def ratMax (a b : ℚ) : ℚ := if Rat.blt a b then b else a

/-- `math.isclose(a, b)` with its defaults `rel_tol=1e-09`, `abs_tol=0.0`,
over the exact-rational model of floats:
`abs(a-b) <= max(rel_tol * max(abs(a), abs(b)), abs_tol)`. -/
def isclose (a b : ℚ) : Bool :=
  !Rat.blt (ratMax (ratMul (mkRat 1 1000000000) (ratMax (ratAbs a) (ratAbs b))) (mkRat 0 1))
    (ratAbs (ratSub a b))

/-- Python `a or b` on an optional value, given the type's truthiness
(`None`, `0`, `0.0` and `""` are falsy). -/
def pyOr {α : Type} (truthy : α → Bool) (a b : Option α) : Option α :=
  match a with
  | some x => if truthy x then some x else b
  | none => b

/-- Truthiness of an `int`. -/
def intTruthy (n : Int) : Bool := decide (n ≠ 0)

/-- Truthiness of a `float`: non-zero (a normalized rational is zero
exactly when its numerator is). -/
def ratTruthy (q : ℚ) : Bool := decide (q.num ≠ 0)

/-- Truthiness of a `str`. -/
def strTruthy (s : String) : Bool := decide (s ≠ "")

/-- A `Fund` record.  Equality and hashing in the source compare only the
ISIN; here structural equality is the model-level equality and the
source's `__eq__` is the comparison of the `isin` fields. -/
structure Fund where
  isin : String
  value_number : Option Int := none
  quantity : Int := 0
  _name : List String := []
  value : Option ℚ := none
  country : Option String := none
  currency : Option String := none
deriving DecidableEq, Repr

/-! #### The ISIN pattern

`Fund.__init__` validates the identity with
`re.match(r"^(?P<pre>.*)(?P<isin>[A-Z]{2}[A-Z0-9]{10})(?P<post>.*)$", isin)`.
`.` does not match a newline; `$` matches at the end of the string or just
before one final newline; the greedy `pre` group pushes the fixed-width
`isin` group as far right as it can go. -/

/-- An ASCII uppercase letter (`[A-Z]`). -/
def isUpperAZ (c : Char) : Bool := 'A' ≤ c && c ≤ 'Z'

/-- `[A-Z0-9]`. -/
def isUpperOrDigit (c : Char) : Bool := isUpperAZ c || c.isDigit

/-- Does the group `[A-Z]{2}[A-Z0-9]{10}` match at position `p`? -/
def isinShapeAt (s : List Char) (p : Nat) : Bool :=
  decide (((s.drop p).take 12).length = 12)
  && (((s.drop p).take 12).take 2).all isUpperAZ
  && (((s.drop p).take 12).drop 2).all isUpperOrDigit

/-- `.*`: a run with no newline in it. -/
def noNewline (s : List Char) : Bool := s.all (fun c => c ≠ '\n')

/-- `.*$` against the rest of the string: no newline, or no newline up to
one final newline that `$` matches before. -/
def dotStarEnd (s : List Char) : Bool :=
  noNewline s || ((s.getLast? = some '\n' : Bool) && noNewline s.dropLast)

/-- The position where the regex engine places the `isin` group: because
`pre` is greedy, the right-most position where the group matches and both
surrounding `.*` runs can match; `none` when the whole match fails. -/
def isinMatchPos (s : List Char) : Option Nat :=
  ((List.range (s.length + 1)).reverse).find? (fun p =>
    isinShapeAt s p && noNewline (s.take p) && dotStarEnd (s.drop (p + 12)))

/-- The `name` argument of `Fund.__init__`: `None`, a string, or a list of
strings. -/
inductive NameArg where
  | none
  | str (s : String)
  | list (l : List String)

/-- `Fund.__init__`.  With `check_isin` the identity is validated and the
canonical 12-character code extracted (a raised `TypeError` on failure);
the returned flag records whether the extra-characters warning was logged
(the `pre` or `post` group was non-empty).  The `name` argument is
normalized to a list. -/
def fundInit (isin : String) (value_number : Option Int) (quantity : Int)
    (name : NameArg) (value : Option ℚ) (country : Option String)
    (currency : Option String) (check_isin : Bool) : Except PyErr (Fund × Bool) :=
  let nameList := match name with
    | .none => []
    | .str s => [s]
    | .list l => l
  if check_isin then
    match isinMatchPos isin.toList with
    | Option.none => .error (.typeError ("Invalid ISIN: " ++ isin))
    | Option.some p =>
      let chars := isin.toList
      let extracted := String.mk ((chars.drop p).take 12)
      let rest := chars.drop (p + 12)
      let postGroup := if noNewline rest then rest else rest.dropLast
      .ok ({ isin := extracted, value_number := value_number, quantity := quantity,
             _name := nameList, value := value, country := country,
             currency := currency },
           decide (0 < p) || decide (postGroup ≠ []))
  else
    .ok ({ isin := isin, value_number := value_number, quantity := quantity,
           _name := nameList, value := value, country := country,
           currency := currency },
         false)

/-- `Fund.__add__`.  The conflict checks are modelled exactly as written in
the source; in particular the monetary-value check compares `self.value`
with `other.quantity`.  The merged record is built by a fresh `Fund(...)`
call, whose `check_isin` argument defaults to `True`, so the ISIN is
re-validated; the warning flag of that construction is returned alongside
the fund. -/
def Fund.add (self other : Fund) : Except PyErr (Fund × Bool) :=
  if self.isin ≠ other.isin then
    .error (.valueError "Cannot add funds with different ISINs")
  else if (match self.value_number, other.value_number with
           | some a, some b => decide (a ≠ b)
           | _, _ => false) then
    .error (.valueError "Cannot add funds with different value numbers")
  else if (match self.value, other.value with
           | some a, some _ => !isclose a (other.quantity : ℚ)
           | _, _ => false) then
    .error (.valueError "Cannot add funds with different quantities")
  else if (match self.country, other.country with
           | some a, some b => decide (a ≠ b)
           | _, _ => false) then
    .error (.valueError "Cannot add funds with different countries")
  else if (match self.currency, other.currency with
           | some a, some b => decide (a ≠ b)
           | _, _ => false) then
    .error (.valueError "Cannot add funds with different currencies")
  else
    fundInit self.isin
      (pyOr intTruthy self.value_number other.value_number)
      (self.quantity + other.quantity)
      (.list (self._name ++ other._name))
      (pyOr ratTruthy self.value other.value)
      (pyOr strTruthy self.country other.country)
      (pyOr strTruthy self.currency other.currency)
      true

/-! ### Claim-side and spec-side definitions

These follow the words of the specification (not the source); they exist
to be compared with the source-side definitions above. -/

/-- Claim side of C4, as the claim words it: a separator character is
removed only when immediately followed by exactly three digits. -/
def claimSepRemovable (sep : Char) (s : List Char) (i : Nat) : Bool :=
  (s[i]? = some sep : Bool) && isDigitAt s (i + 1) && isDigitAt s (i + 2) &&
  isDigitAt s (i + 3) && !isDigitAt s (i + 4)

/-- Claim-side normalization for C4. -/
def claimStrip (sep : Char) (s : List Char) : List Char :=
  (s.enum.filter (fun p => !claimSepRemovable sep s p.1)).map Prod.snd

/-- Claim-side integer parsing for C4: after the claim-side normalization
the string must consist of an optional single leading sign followed by
digits only. -/
def claimIntValue (sep : Char) (s : String) : Option Int :=
  match claimStrip sep s.toList with
  | '+' :: rest =>
    if rest ≠ [] ∧ rest.all Char.isDigit then some ((digitsVal rest : Int)) else none
  | '-' :: rest =>
    if rest ≠ [] ∧ rest.all Char.isDigit then some (-(digitsVal rest : Int)) else none
  | rest =>
    if rest ≠ [] ∧ rest.all Char.isDigit then some ((digitsVal rest : Int)) else none

/-- Spec-side digit group of a Python integer literal: digits optionally
separated by single underscores. -/
inductive DigitsU : List Char → Prop where
  | single (c : Char) : c.isDigit = true → DigitsU [c]
  | cons (c : Char) (l : List Char) : c.isDigit = true → DigitsU l → DigitsU (c :: l)
  | consU (c : Char) (l : List Char) : c.isDigit = true → DigitsU l → DigitsU (c :: '_' :: l)

/-- Spec-side shape of a string accepted by Python `int`: optional
surrounding whitespace, an optional single leading sign, and a digit
group. -/
def PyIntShape (s : List Char) : Prop :=
  ∃ w1 sgn core w2, s = w1 ++ sgn ++ core ++ w2
    ∧ (∀ c ∈ w1, pyWhitespace c = true) ∧ (∀ c ∈ w2, pyWhitespace c = true)
    ∧ (sgn = [] ∨ sgn = ['+'] ∨ sgn = ['-'])
    ∧ DigitsU core

/-! ### Concrete fixtures used by witnesses -/

/-- A typed table after a `select`: three selected columns with integer
parsing on `id` (the end-to-end scenario of the spec, with a plain-text
`A` column). -/
def sampleTable : Table :=
  { _header := ["Full Name", "Numeric Id", "Amount"],
    _content := [["Foo", "x", "1"], ["Bar", "2", "3"]],
    selected := [("name", 0), ("id", 1), ("A", 2)],
    parsers := [(0, parserId), (1, intParserFun ⟨Option.none⟩), (2, parserId)] }

/-- A specification matching `sampleTable`'s header. -/
def sampleSpec : TableSpec :=
  { columns := [("name", "Full Name"), ("id", "Numeric Id")], drop := some ["Amount"] }

/-- Merge fixtures for witnesses: a left fund holding a value number, a
right fund holding only the identity, and their merged record. -/
def fundA : Fund := { isin := "CH0012345678", value_number := some 5 }

/-- See `fundA`. -/
def fundB : Fund := { isin := "CH0012345678" }

/-- See `fundA`. -/
def fundAB : Fund := { isin := "CH0012345678", value_number := some 5 }

deriving instance DecidableEq for Except

/-! ## Theorems -/

/-- Claim C1 (code defect, evaluated).  The claim says the merge of two
funds with both monetary values present fails with a monetary-value
conflict iff the two values differ beyond `math.isclose`, comparing value
against value.  The source instead tests `isclose(self.value,
other.quantity)`: merging two funds with the *same* value `1.5` (and
quantities `0`) raises the conflict, while merging values `1.0` against
`2.0` succeeds because the right side's quantity is `1`. -/
theorem C1_value_conflict_compares_quantity :
    Fund.add { isin := "CH0012345678", value := some (mkRat 3 2) }
             { isin := "CH0012345678", value := some (mkRat 3 2) }
      = .error (.valueError "Cannot add funds with different quantities")
    ∧ Fund.add { isin := "CH0012345678", value := some (mkRat 1 1) }
               { isin := "CH0012345678", quantity := 1, value := some (mkRat 2 1) }
      = .ok ({ isin := "CH0012345678", quantity := 1, value := some (mkRat 1 1) }, false) := by
  decide

/-- Claim C2 (code defect, evaluated).  The claim says that for two funds
with the same identity and no conflicting reconciled field both `a + b`
and `b + a` succeed.  With `a = b` holding the monetary value `10.0` and
quantity `0` there is no conflicting field, yet the merge (in either
order, the operands being equal) raises, because the source compares
`self.value` against `other.quantity`. -/
theorem C2_commutative_merge_raises :
    Fund.add { isin := "CH0012345678", value := some (mkRat 10 1) }
             { isin := "CH0012345678", value := some (mkRat 10 1) }
      = .error (.valueError "Cannot add funds with different quantities") := by
  decide

/-- Claim C5 (code defect, evaluated).  The claim says a merge of two
same-identity funds whose monetary values both exist and differ always
fails with a conflict naming the monetary-value field.  Values `3.0` and
`7.0` differ far beyond `isclose`, yet the merge succeeds (keeping `3.0`)
because the source compares `self.value` with `other.quantity`, which is
`3` here. -/
theorem C5_value_conflict_not_raised :
    Fund.add { isin := "CH0012345678", value := some (mkRat 3 1) }
             { isin := "CH0012345678", quantity := 3, value := some (mkRat 7 1) }
      = .ok ({ isin := "CH0012345678", quantity := 3, value := some (mkRat 3 1) }, false) := by
  decide

/-- Claim C6, counterexample.  The claim says that when only one side
holds a value for a reconciled field the merged record holds that value.
When the left side holds value-number `0` (or country `""`) and the right
side holds none, the merged record holds none: the combination uses
Python `or`, which treats `0` and `""` as absent. -/
theorem C6_falsy_field_dropped :
    Fund.add { isin := "CH0012345678", value_number := some 0 } { isin := "CH0012345678" }
      = .ok ({ isin := "CH0012345678" }, false)
    ∧ Fund.add { isin := "CH0012345678", country := some "" } { isin := "CH0012345678" }
      = .ok ({ isin := "CH0012345678" }, false) := by
  decide

/-- Claim C4, counterexample.  The claim-side parser (separator removed
only before *exactly* three digits; accepted strings are exactly an
optional sign plus digits) disagrees with the source in both directions:
`"1,2345"` parses in the source (the lookahead `\d{3}` means *at least*
three digits) but not per the claim; `",123"` parses per the claim but
not in the source (the lookbehind needs a digit before the separator);
`" 12"` and `"1_2"` parse in the source (Python `int` allows surrounding
whitespace and grouping underscores) but not per the claim. -/
theorem C4_exactly_three_digits_refuted :
    IntParser.value ⟨some ','⟩ "1,2345" = some 12345
    ∧ claimIntValue ',' "1,2345" = Option.none
    ∧ IntParser.value ⟨some ','⟩ ",123" = Option.none
    ∧ claimIntValue ',' ",123" = some 123
    ∧ IntParser.value ⟨some ','⟩ " 12" = some 12
    ∧ claimIntValue ',' " 12" = Option.none
    ∧ IntParser.value ⟨some ','⟩ "1_2" = some 12
    ∧ claimIntValue ',' "1_2" = Option.none := by
  decide

/-- Claim C10, counterexample.  The claim says every input containing more
than one canonical-shape substring yields the right-most one.  The input
`"AB1234567890CD1234567890\nX"` contains two such substrings (at offsets
0 and 12), but construction fails outright: `.` does not match the
newline, so neither surrounding group can absorb the tail. -/
theorem C10_newline_input_fails :
    isinShapeAt "AB1234567890CD1234567890\nX".toList 0 = true
    ∧ isinShapeAt "AB1234567890CD1234567890\nX".toList 12 = true
    ∧ fundInit "AB1234567890CD1234567890\nX" Option.none 0 NameArg.none Option.none Option.none
        Option.none true
      = .error (.typeError "Invalid ISIN: AB1234567890CD1234567890\nX") := by
  decide

/-- Claim C9: in strict mode, a parser mapping naming any field that is
not currently selected makes `parse_with` return `False` with the table
state entirely unchanged — the membership check precedes every
assignment. -/
theorem C9_strict_parse_with_unchanged (t : Table) (ps : List (String × ParserFun))
    (h : ∃ lp ∈ ps, dictHasKey t.selected lp.1 = false) :
    t.parse_with ps true = (false, t) := by
  obtain ⟨lp, hmem, hlp⟩ := h
  have hany : ps.any (fun lp => !dictHasKey t.selected lp.1) = true :=
    List.any_eq_true.2 ⟨lp, hmem, by simp [hlp]⟩
  simp [Table.parse_with, hany]

/-- Witness for C9 at a concrete table and parser mapping. -/
theorem C9_strict_parse_with_unchanged_witness :
    Table.parse_with sampleTable [("missing", parserId)] true = (false, sampleTable) :=
  C9_strict_parse_with_unchanged sampleTable [("missing", parserId)]
    ⟨("missing", parserId), List.mem_singleton.2 rfl, by decide⟩

/-- Rows that all parse successfully make the iteration succeed with one
record per row. -/
theorem iterFrom_all_ok (t : Table) (rows : List (List String))
    (h : ∀ r ∈ rows, ∃ d, parseRow t r = .ok d) :
    ∃ l, iterFrom t rows = .ok l ∧ l.length = rows.length := by
  induction rows with
  | nil => exact ⟨[], rfl, rfl⟩
  | cons r rest ih =>
    obtain ⟨d, hd⟩ := h r (List.mem_cons_self r rest)
    obtain ⟨l, hl, hlen⟩ := ih (fun x hx => h x (List.mem_cons_of_mem r hx))
    refine ⟨d :: l, ?_, by simp [hlen]⟩
    simp [iterFrom, hd, hl, Except.map]

/-- A row whose parse raises `ValueError` is invisible to the iteration. -/
theorem iterFrom_skips_valueError (t : Table) (bad : List String) (msg : String)
    (hbad : parseRow t bad = .error (.valueError msg)) (pre post : List (List String)) :
    iterFrom t (pre ++ bad :: post) = iterFrom t (pre ++ post) := by
  induction pre with
  | nil => simp [iterFrom, hbad]
  | cons r rest ih =>
    simp only [List.cons_append, iterFrom, List.append_eq]
    rw [ih]

/-- Claim C3: a table whose content has exactly one malformed row (one on
which the row parse raises `ValueError` while every other row parses)
iterates to exactly N−1 records, in source order, omitting only the
malformed row; the failure never escapes the iteration. -/
theorem C3_malformed_row_skipped (t : Table) (pre post : List (List String))
    (bad : List String) (msg : String)
    (hcontent : t._content = pre ++ bad :: post)
    (hbad : parseRow t bad = .error (.valueError msg))
    (hok : ∀ r ∈ pre ++ post, ∃ d, parseRow t r = .ok d) :
    ∃ l, t.iterate = .ok l ∧ l.length + 1 = t._content.length
      ∧ iterFrom t (pre ++ post) = .ok l := by
  obtain ⟨l, hl, hlen⟩ := iterFrom_all_ok t (pre ++ post) hok
  refine ⟨l, ?_, ?_, hl⟩
  · rw [Table.iterate, hcontent, iterFrom_skips_valueError t bad msg hbad, hl]
  · rw [hcontent]
    simp only [List.length_append, List.length_cons] at hlen ⊢
    omega

/-- Witness for C3: the sample table's first row fails integer parsing of
`"x"`, the second row parses; iteration yields exactly the second row. -/
theorem C3_malformed_row_skipped_witness :
    ∃ l, Table.iterate sampleTable = .ok l
      ∧ l.length + 1 = sampleTable._content.length
      ∧ iterFrom sampleTable ([] ++ [["Bar", "2", "3"]]) = .ok l :=
  C3_malformed_row_skipped sampleTable [] [["Bar", "2", "3"]] ["Foo", "x", "1"]
    "invalid literal for int() with base 10" rfl rfl
    (by
      intro r hr
      simp only [List.nil_append, List.mem_singleton] at hr
      subst hr
      exact ⟨[("name", .str "Bar"), ("id", .int 2), ("A", .str "3")], rfl⟩)

/-- A present column name has an index. -/
theorem listIndex_isSome (l : List String) (x : String) (h : x ∈ l) :
    ∃ i, listIndex l x = some i := by
  rw [← Option.isSome_iff_exists, Option.isSome_iff_ne_none]
  intro hn
  rw [listIndex, List.findIdx?_eq_none_iff] at hn
  exact absurd (hn x h) (by simp)

/-- A comprehension with no failing entry succeeds. -/
theorem mapOption_isSome {α β : Type} (f : α → Option β) (l : List α)
    (h : ∀ a ∈ l, ∃ b, f a = some b) : ∃ r, mapOption f l = some r := by
  induction l with
  | nil => exact ⟨[], rfl⟩
  | cons a l ih =>
    obtain ⟨b, hb⟩ := h a (List.mem_cons_self a l)
    obtain ⟨r, hr⟩ := ih (fun x hx => h x (List.mem_cons_of_mem a hx))
    exact ⟨b :: r, by simp [mapOption, hb, hr]⟩

/-- Looking up the key just assigned. -/
theorem dictGet?_insert_self {α β : Type} [DecidableEq α] (d : List (α × β)) (k : α) (v : β) :
    dictGet? (dictInsert d k v) k = some v := by
  induction d with
  | nil => simp [dictInsert, dictGet?]
  | cons p d ih =>
    by_cases hp : p.1 = k
    · simp [dictInsert, hp, dictGet?]
    · simp [dictInsert, hp, dictGet?, ih]

/-- Assignment leaves other keys alone. -/
theorem dictGet?_insert_ne {α β : Type} [DecidableEq α] (d : List (α × β)) (k k' : α) (v : β)
    (h : k' ≠ k) : dictGet? (dictInsert d k v) k' = dictGet? d k' := by
  induction d with
  | nil => simp [dictInsert, dictGet?, Ne.symm h]
  | cons p d ih =>
    by_cases hp : p.1 = k
    · simp [dictInsert, hp, dictGet?, Ne.symm h]
    · have hins : dictInsert (p :: d) k v = p :: dictInsert d k v := by
        simp [dictInsert, hp]
      rw [hins]
      by_cases hp' : p.1 = k'
      · simp [dictGet?, hp']
      · simp [dictGet?, hp', ih]

/-- Folding constant-valued assignments: any key among them (or already
holding the constant) looks up to the constant. -/
theorem dictGet?_foldl_const {α β : Type} [DecidableEq α] (c : β) :
    ∀ (l : List α) (d : List (α × β)) (k : α),
      (∀ v, dictGet? d k = some v → v = c) →
      (k ∈ l ∨ (dictGet? d k).isSome) →
      dictGet? ((l.map (fun i => (i, c))).foldl (fun d p => dictInsert d p.1 p.2) d) k
        = some c := by
  intro l
  induction l with
  | nil =>
    intro d k hv hp
    rcases hp with hp | hp
    · exact absurd hp (List.not_mem_nil k)
    · obtain ⟨v, hvv⟩ := Option.isSome_iff_exists.1 hp
      rw [List.map_nil, List.foldl_nil, hvv, hv v hvv]
  | cons i l ih =>
    intro d k hv hp
    rw [List.map_cons, List.foldl_cons]
    by_cases hk : k = i
    · subst hk
      refine ih (dictInsert d k c) k ?_ (Or.inr ?_)
      · intro v hvv
        rw [dictGet?_insert_self] at hvv
        exact (Option.some_inj.1 hvv).symm
      · rw [dictGet?_insert_self]; rfl
    · refine ih (dictInsert d i c) k ?_ ?_
      · intro v hvv
        rw [dictGet?_insert_ne d i k c hk] at hvv
        exact hv v hvv
      · rcases hp with hp | hp
        · rcases List.mem_cons.1 hp with hp | hp
          · exact absurd hp hk
          · exact Or.inl hp
        · rw [dictGet?_insert_ne d i k c hk]
          exact Or.inr hp

/-- Every key of a constant-valued dict comprehension holds the constant. -/
theorem dictGet?_dictOf_const {α β : Type} [DecidableEq α] (c : β) (l : List α) (k : α)
    (h : k ∈ l) : dictGet? (dictOf (l.map (fun i => (i, c)))) k = some c :=
  dictGet?_foldl_const c l [] k (fun v hv => by simp [dictGet?] at hv) (Or.inl h)

/-- Claim C8: on a table whose header matches the specification (every
required column and every drop column occurs in the header), `select` is
idempotent — both calls report success, the second call leaves the state
exactly as the first left it, and after each call every selected column's
parser is the identity parser. -/
theorem C8_select_idempotent (t : Table) (spec : TableSpec)
    (hcols : ∀ lc ∈ spec.columns, lc.2 ∈ t._header)
    (hdrop : ∀ d, spec.drop = some d → ∀ c ∈ d, c ∈ t._header) :
    (t.select spec).1 = true
    ∧ ((t.select spec).2.select spec).1 = true
    ∧ ((t.select spec).2.select spec).2 = (t.select spec).2
    ∧ (∀ li ∈ (t.select spec).2.selected,
        dictGet? (t.select spec).2.parsers li.2 = some parserId) := by
  rcases t with ⟨hd, ct, sl, pr⟩
  obtain ⟨sel, hsel⟩ := mapOption_isSome
      (fun lc => (listIndex hd lc.2).map (fun i => (lc.1, i))) spec.columns
      (fun lc hlc => by
        obtain ⟨i, hi⟩ := listIndex_isSome hd lc.2 (hcols lc hlc)
        exact ⟨(lc.1, i), by simp [hi]⟩)
  have hflag : (match spec.drop with
      | Option.none => true
      | Option.some d => d.all (fun c => hd.contains c)) = true := by
    cases hdd : spec.drop with
    | none => rfl
    | some d =>
      simp only []
      exact List.all_eq_true.2 (fun c hc => List.elem_eq_true_of_mem (hdrop d hdd c hc))
  constructor
  · simp only [Table.select, hsel, hflag]
  refine ⟨?_, ?_, ?_⟩
  · simp only [Table.select, hsel, hflag]
  · simp only [Table.select, hsel]
  · simp only [Table.select, hsel]
    intro li hli
    have : li.2 ∈ (dictOf sel).map Prod.snd := List.mem_map_of_mem Prod.snd hli
    have hmm := dictGet?_dictOf_const parserId ((dictOf sel).map Prod.snd) li.2 this
    rw [List.map_map] at hmm
    exact hmm

/-- Witness for C8 at a concrete table and matching specification. -/
theorem C8_select_idempotent_witness :
    (sampleTable.select sampleSpec).1 = true
    ∧ ((sampleTable.select sampleSpec).2.select sampleSpec).1 = true
    ∧ ((sampleTable.select sampleSpec).2.select sampleSpec).2 = (sampleTable.select sampleSpec).2
    ∧ (∀ li ∈ (sampleTable.select sampleSpec).2.selected,
        dictGet? (sampleTable.select sampleSpec).2.parsers li.2 = some parserId) :=
  C8_select_idempotent sampleTable sampleSpec (by decide)
    (by intro d hd; injection hd with h; subst h; decide)

/-- A successful merge's record carries the source's field combinations:
summed quantity, concatenated names, and `or`-combined reconciled
fields. -/
theorem add_ok_fields {a b f : Fund} {w : Bool} (h : Fund.add a b = .ok (f, w)) :
    f.value_number = pyOr intTruthy a.value_number b.value_number
    ∧ f.quantity = a.quantity + b.quantity
    ∧ f._name = a._name ++ b._name
    ∧ f.value = pyOr ratTruthy a.value b.value
    ∧ f.country = pyOr strTruthy a.country b.country
    ∧ f.currency = pyOr strTruthy a.currency b.currency := by
  unfold Fund.add at h
  split_ifs at h <;> try exact (Except.noConfusion h)
  unfold fundInit at h
  simp only [if_true] at h
  cases hm : isinMatchPos a.isin.toList with
  | none => rw [hm] at h; exact (Except.noConfusion h)
  | some p =>
    rw [hm] at h
    simp only [Except.ok.injEq, Prod.mk.injEq] at h
    obtain ⟨hf, _⟩ := h
    subst hf
    exact ⟨rfl, rfl, rfl, rfl, rfl, rfl⟩

/-- Claim C6 (amended): for a successful merge `a + b`, each reconciled
field combines as follows — a value held only by `b` is kept; a value
held only by `a` is kept when truthy and *dropped* (the merged record
holds no value) when it is zero or empty; a value held identically by
both sides is kept. -/
theorem C6_reconciled_field_rule (a b f : Fund) (w : Bool) (h : Fund.add a b = .ok (f, w)) :
    ((∀ x, a.value_number = some x → b.value_number = Option.none → intTruthy x = true →
        f.value_number = some x)
     ∧ (∀ x, a.value_number = some x → b.value_number = Option.none → intTruthy x = false →
        f.value_number = Option.none)
     ∧ (∀ x, a.value_number = Option.none → b.value_number = some x → f.value_number = some x)
     ∧ (∀ x, a.value_number = some x → b.value_number = some x → f.value_number = some x))
    ∧ ((∀ x, a.value = some x → b.value = Option.none → ratTruthy x = true → f.value = some x)
     ∧ (∀ x, a.value = some x → b.value = Option.none → ratTruthy x = false →
        f.value = Option.none)
     ∧ (∀ x, a.value = Option.none → b.value = some x → f.value = some x)
     ∧ (∀ x, a.value = some x → b.value = some x → f.value = some x))
    ∧ ((∀ x, a.country = some x → b.country = Option.none → strTruthy x = true →
        f.country = some x)
     ∧ (∀ x, a.country = some x → b.country = Option.none → strTruthy x = false →
        f.country = Option.none)
     ∧ (∀ x, a.country = Option.none → b.country = some x → f.country = some x)
     ∧ (∀ x, a.country = some x → b.country = some x → f.country = some x))
    ∧ ((∀ x, a.currency = some x → b.currency = Option.none → strTruthy x = true →
        f.currency = some x)
     ∧ (∀ x, a.currency = some x → b.currency = Option.none → strTruthy x = false →
        f.currency = Option.none)
     ∧ (∀ x, a.currency = Option.none → b.currency = some x → f.currency = some x)
     ∧ (∀ x, a.currency = some x → b.currency = some x → f.currency = some x)) := by
  obtain ⟨hvn, -, -, hv, hco, hcu⟩ := add_ok_fields h
  refine ⟨⟨?_, ?_, ?_, ?_⟩, ⟨?_, ?_, ?_, ?_⟩, ⟨?_, ?_, ?_, ?_⟩, ⟨?_, ?_, ?_, ?_⟩⟩
  · intro x h1 h2 h3; rw [hvn, h1, h2]; simp [pyOr, h3]
  · intro x h1 h2 h3; rw [hvn, h1, h2]; simp [pyOr, h3]
  · intro x h1 h2; rw [hvn, h1, h2]; rfl
  · intro x h1 h2; rw [hvn, h1, h2]; simp [pyOr]
  · intro x h1 h2 h3; rw [hv, h1, h2]; simp [pyOr, h3]
  · intro x h1 h2 h3; rw [hv, h1, h2]; simp [pyOr, h3]
  · intro x h1 h2; rw [hv, h1, h2]; rfl
  · intro x h1 h2; rw [hv, h1, h2]; simp [pyOr]
  · intro x h1 h2 h3; rw [hco, h1, h2]; simp [pyOr, h3]
  · intro x h1 h2 h3; rw [hco, h1, h2]; simp [pyOr, h3]
  · intro x h1 h2; rw [hco, h1, h2]; rfl
  · intro x h1 h2; rw [hco, h1, h2]; simp [pyOr]
  · intro x h1 h2 h3; rw [hcu, h1, h2]; simp [pyOr, h3]
  · intro x h1 h2 h3; rw [hcu, h1, h2]; simp [pyOr, h3]
  · intro x h1 h2; rw [hcu, h1, h2]; rfl
  · intro x h1 h2; rw [hcu, h1, h2]; simp [pyOr]

/-- Witness for C6 (amended) at a concrete merge. -/
theorem C6_reconciled_field_rule_witness :
    ((∀ x, fundA.value_number = some x → fundB.value_number = Option.none → intTruthy x = true →
        fundAB.value_number = some x)
     ∧ (∀ x, fundA.value_number = some x → fundB.value_number = Option.none → intTruthy x = false →
        fundAB.value_number = Option.none)
     ∧ (∀ x, fundA.value_number = Option.none → fundB.value_number = some x → fundAB.value_number = some x)
     ∧ (∀ x, fundA.value_number = some x → fundB.value_number = some x → fundAB.value_number = some x))
    ∧ ((∀ x, fundA.value = some x → fundB.value = Option.none → ratTruthy x = true → fundAB.value = some x)
     ∧ (∀ x, fundA.value = some x → fundB.value = Option.none → ratTruthy x = false →
        fundAB.value = Option.none)
     ∧ (∀ x, fundA.value = Option.none → fundB.value = some x → fundAB.value = some x)
     ∧ (∀ x, fundA.value = some x → fundB.value = some x → fundAB.value = some x))
    ∧ ((∀ x, fundA.country = some x → fundB.country = Option.none → strTruthy x = true →
        fundAB.country = some x)
     ∧ (∀ x, fundA.country = some x → fundB.country = Option.none → strTruthy x = false →
        fundAB.country = Option.none)
     ∧ (∀ x, fundA.country = Option.none → fundB.country = some x → fundAB.country = some x)
     ∧ (∀ x, fundA.country = some x → fundB.country = some x → fundAB.country = some x))
    ∧ ((∀ x, fundA.currency = some x → fundB.currency = Option.none → strTruthy x = true →
        fundAB.currency = some x)
     ∧ (∀ x, fundA.currency = some x → fundB.currency = Option.none → strTruthy x = false →
        fundAB.currency = Option.none)
     ∧ (∀ x, fundA.currency = Option.none → fundB.currency = some x → fundAB.currency = some x)
     ∧ (∀ x, fundA.currency = some x → fundB.currency = some x → fundAB.currency = some x)) :=
  C6_reconciled_field_rule fundA fundB fundAB false (by decide)

/-- Claim C7: with identity checking enabled, (i) every successful
construction stores an identity of the canonical shape — twelve
characters: two uppercase letters then ten uppercase alphanumerics;
(ii) construction fails with the `TypeError` whenever no position of the
input matches the canonical shape; (iii) `"Prefix CH0012345678 Suffix"`
yields `CH0012345678` with the extra-characters warning logged;
(iv) `"short123"` fails. -/
theorem C7_isin_invariant :
    (∀ (isin : String) (vn : Option Int) (q : Int) (nm : NameArg) (v : Option ℚ)
        (co cu : Option String) (f : Fund) (w : Bool),
      fundInit isin vn q nm v co cu true = .ok (f, w) →
        f.isin.toList.length = 12 ∧ (f.isin.toList.take 2).all isUpperAZ = true
          ∧ (f.isin.toList.drop 2).all isUpperOrDigit = true)
    ∧ (∀ (isin : String) (vn : Option Int) (q : Int) (nm : NameArg) (v : Option ℚ)
        (co cu : Option String),
      (∀ p, isinShapeAt isin.toList p = false) →
        fundInit isin vn q nm v co cu true = .error (.typeError ("Invalid ISIN: " ++ isin)))
    ∧ fundInit "Prefix CH0012345678 Suffix" Option.none 0 NameArg.none Option.none Option.none
        Option.none true = .ok ({ isin := "CH0012345678" }, true)
    ∧ fundInit "short123" Option.none 0 NameArg.none Option.none Option.none Option.none true
      = .error (.typeError "Invalid ISIN: short123") := by
  refine ⟨?_, ?_, by decide, by decide⟩
  · intro isin vn q nm v co cu f w h
    unfold fundInit at h
    simp only [if_true] at h
    cases hm : isinMatchPos isin.toList with
    | none => rw [hm] at h; exact (Except.noConfusion h)
    | some p =>
      rw [hm] at h
      simp only [Except.ok.injEq, Prod.mk.injEq] at h
      obtain ⟨hf, -⟩ := h
      subst hf
      rw [isinMatchPos] at hm
      have hpred := List.find?_some hm
      simp only [Bool.and_eq_true] at hpred
      obtain ⟨⟨hshape, -⟩, -⟩ := hpred
      rw [isinShapeAt] at hshape
      simp only [Bool.and_eq_true, decide_eq_true_eq] at hshape
      exact ⟨hshape.1.1, hshape.1.2, hshape.2⟩
  · intro isin vn q nm v co cu h
    have hm : isinMatchPos isin.toList = Option.none := by
      rw [isinMatchPos]
      refine List.find?_eq_none.2 (fun p hp => ?_)
      rw [Bool.not_eq_true, h p, Bool.false_and, Bool.false_and]
    unfold fundInit
    simp only [if_true]
    rw [hm]

/-- The fixed-width group `[A-Z]{2}[A-Z0-9]{10}` cannot match with fewer
than twelve characters remaining. -/
theorem isinShapeAt_out_of_range (s : List Char) (p : Nat) (h : s.length < p + 12) :
    isinShapeAt s p = false := by
  have hlt : ((s.drop p).take 12).length ≠ 12 := by
    simp only [List.length_take, List.length_drop]
    omega
  rw [isinShapeAt, decide_eq_false hlt, Bool.false_and, Bool.false_and]

/-- `find?` over a reversed range returns the greatest position below the
bound that satisfies the predicate. -/
theorem find?_reverse_range (pred : Nat → Bool) :
    ∀ (k p : Nat), p < k → pred p = true →
      (∀ q, q < k → p < q → pred q = false) →
      ((List.range k).reverse.find? pred) = some p := by
  intro k
  induction k with
  | zero => intro p hp _ _; omega
  | succ n ih =>
    intro p hp hpred hmax
    rw [List.range_succ, List.reverse_append]
    simp only [List.reverse_singleton, List.singleton_append]
    by_cases hpn : p = n
    · subst hpn
      rw [List.find?_cons_of_pos _ hpred]
    · have hn : pred n = false := hmax n (Nat.lt_succ_self n) (by omega)
      rw [List.find?_cons_of_neg _ (by simp [hn])]
      exact ih p (by omega) hpred (fun q hq hpq => hmax q (by omega) hpq)

/-- Claim C10 (amended): on a newline-free input, construction with
identity checking extracts the canonical-shape substring at the greatest
matching position — the right-most occurrence — because the greedy
prefix group pushes the match right. -/
theorem C10_rightmost_match (s : String) (p : Nat)
    (hnl : noNewline s.toList = true)
    (hshape : isinShapeAt s.toList p = true)
    (hmax : ∀ q, q < s.toList.length → p < q → isinShapeAt s.toList q = false) :
    ∃ f w, fundInit s Option.none 0 NameArg.none Option.none Option.none Option.none true
      = .ok (f, w) ∧ f.isin = String.mk ((s.toList.drop p).take 12) := by
  have hlen : p + 12 ≤ s.toList.length := by
    by_contra hc
    rw [isinShapeAt_out_of_range s.toList p (by omega)] at hshape
    exact Bool.noConfusion hshape
  have htake : ∀ q, noNewline (s.toList.take q) = true := fun q =>
    List.all_eq_true.2 (fun c hc => List.all_eq_true.1 hnl c (List.mem_of_mem_take hc))
  have hdr : ∀ q, noNewline (s.toList.drop q) = true := fun q =>
    List.all_eq_true.2 (fun c hc => List.all_eq_true.1 hnl c (List.mem_of_mem_drop hc))
  have hpos : isinMatchPos s.toList = some p := by
    rw [isinMatchPos]
    refine find?_reverse_range _ (s.toList.length + 1) p (by omega) ?_ ?_
    · rw [hshape, htake p, Bool.true_and, Bool.true_and, dotStarEnd, hdr (p + 12), Bool.true_or]
    · intro q hq hpq
      by_cases hql : q < s.toList.length
      · rw [hmax q hql hpq, Bool.false_and, Bool.false_and]
      · rw [isinShapeAt_out_of_range s.toList q (by omega), Bool.false_and, Bool.false_and]
  have hres : fundInit s Option.none 0 NameArg.none Option.none Option.none Option.none true
      = .ok ({ isin := String.mk ((s.toList.drop p).take 12) },
          decide (0 < p) ||
            decide ((if noNewline (s.toList.drop (p + 12)) then s.toList.drop (p + 12)
                     else (s.toList.drop (p + 12)).dropLast) ≠ [])) := by
    unfold fundInit
    simp only [if_true]
    rw [hpos]
  exact ⟨_, _, hres, rfl⟩

/-- Witness for C10 (amended): two canonical-shape substrings at offsets
0 and 12; the extracted identity is the right-most one. -/
theorem C10_rightmost_match_witness :
    ∃ f w, fundInit "AB1234567890CD1234567890" Option.none 0 NameArg.none Option.none
        Option.none Option.none true = .ok (f, w)
      ∧ f.isin = String.mk (("AB1234567890CD1234567890".toList.drop 12).take 12) :=
  C10_rightmost_match "AB1234567890CD1234567890" 12 (by decide) (by decide) (by decide)

/-- No derivation produces the empty digit group. -/
theorem DigitsU_ne_nil {l : List Char} (h : DigitsU l) : l ≠ [] := by
  cases h <;> simp

/-- A digit group starts with a digit. -/
theorem DigitsU_head {l : List Char} (h : DigitsU l) :
    ∃ c t, l = c :: t ∧ c.isDigit = true := by
  cases h with
  | single c hc => exact ⟨c, [], rfl, hc⟩
  | cons c t hc _ => exact ⟨c, t, rfl, hc⟩
  | consU c t hc _ => exact ⟨c, '_' :: t, rfl, hc⟩

/-- A digit group ends with a digit. -/
theorem DigitsU_getLast {l : List Char} (h : DigitsU l) :
    ∃ c, l.getLast? = some c ∧ c.isDigit = true := by
  induction h with
  | single c hc => exact ⟨c, rfl, hc⟩
  | cons c t hc ht ih =>
    obtain ⟨d, hd, hdig⟩ := ih
    obtain ⟨e, t', rfl, -⟩ := DigitsU_head ht
    exact ⟨d, by rw [List.getLast?_cons_cons]; exact hd, hdig⟩
  | consU c t hc ht ih =>
    obtain ⟨d, hd, hdig⟩ := ih
    obtain ⟨e, t', rfl, -⟩ := DigitsU_head ht
    exact ⟨d, by rw [List.getLast?_cons_cons, List.getLast?_cons_cons]; exact hd, hdig⟩

/-- The Boolean digit-group test of the `int` model agrees with the
spec-side grammar. -/
theorem validDigitGroup_iff (l : List Char) : validDigitGroup l = true ↔ DigitsU l := by
  induction l using validDigitGroup.induct with
  | case1 =>
    simp only [validDigitGroup]
    exact ⟨fun h => Bool.noConfusion h, fun h => by cases h⟩
  | case2 c =>
    simp only [validDigitGroup]
    constructor
    · exact fun h => DigitsU.single c h
    · intro h
      cases h with
      | single _ hc => exact hc
      | cons _ _ hc hl => cases hl
  | case3 c rest ih =>
    rw [validDigitGroup, if_pos rfl]
    constructor
    · intro h
      rw [Bool.and_eq_true] at h
      exact DigitsU.consU c rest h.1 (ih.1 h.2)
    · intro h
      cases h with
      | cons _ _ hc hl =>
        obtain ⟨e, t', he, hedig⟩ := DigitsU_head hl
        rw [List.cons.injEq] at he
        rw [← he.1] at hedig
        exact absurd hedig (by decide)
      | consU _ _ hc hl =>
        rw [Bool.and_eq_true]
        exact ⟨hc, ih.2 hl⟩
  | case4 c c2 rest hu ih =>
    rw [validDigitGroup, if_neg hu]
    constructor
    · intro h
      rw [Bool.and_eq_true] at h
      exact DigitsU.cons c (c2 :: rest) h.1 (ih.1 h.2)
    · intro h
      cases h with
      | cons _ _ hc hl =>
        rw [Bool.and_eq_true]
        exact ⟨hc, ih.2 hl⟩
      | consU _ _ hc hl => exact absurd rfl hu

/-- An ASCII digit is not whitespace. -/
theorem isDigit_not_pyWhitespace {c : Char} (h : c.isDigit = true) :
    pyWhitespace c = false := by
  cases hw : pyWhitespace c
  · rfl
  · exfalso
    simp only [pyWhitespace, Bool.or_eq_true, decide_eq_true_eq] at hw
    rcases hw with ((((rfl | rfl) | rfl) | rfl) | rfl) | rfl <;> exact absurd h (by decide)

/-- An ASCII digit is not a sign character. -/
theorem isDigit_ne_plus {c : Char} (h : c.isDigit = true) : ¬(c = '+') := by
  intro hc; subst hc; exact absurd h (by decide)

/-- An ASCII digit is not a sign character. -/
theorem isDigit_ne_minus {c : Char} (h : c.isDigit = true) : ¬(c = '-') := by
  intro hc; subst hc; exact absurd h (by decide)

/-- Dropping a leading all-`p` run continues into the remainder. -/
theorem dropWhile_append_of_all {p : Char → Bool} (w r : List Char)
    (h : ∀ c ∈ w, p c = true) : (w ++ r).dropWhile p = r.dropWhile p := by
  induction w with
  | nil => rfl
  | cons c w ih =>
    rw [List.cons_append, List.dropWhile_cons, if_pos (h c (List.mem_cons_self c w))]
    exact ih (fun x hx => h x (List.mem_cons_of_mem c hx))

/-- `dropWhile` keeps a list whose head falsifies the predicate. -/
theorem dropWhile_head_false {p : Char → Bool} (c : Char) (r : List Char)
    (h : p c = false) : (c :: r).dropWhile p = c :: r := by
  rw [List.dropWhile_cons, if_neg (by simp [h])]

/-- Every string splits as whitespace, its stripped middle, and
whitespace. -/
theorem stripPy_split (l : List Char) :
    ∃ w1 w2, l = w1 ++ stripPy l ++ w2
      ∧ (∀ c ∈ w1, pyWhitespace c = true) ∧ (∀ c ∈ w2, pyWhitespace c = true) := by
  refine ⟨l.takeWhile pyWhitespace,
    ((l.dropWhile pyWhitespace).reverse.takeWhile pyWhitespace).reverse, ?_, ?_, ?_⟩
  · conv_lhs => rw [← List.takeWhile_append_dropWhile pyWhitespace l]
    rw [List.append_assoc]
    congr 1
    conv_lhs => rw [← List.reverse_reverse (l.dropWhile pyWhitespace)]
    conv_lhs =>
      rw [← List.takeWhile_append_dropWhile pyWhitespace (l.dropWhile pyWhitespace).reverse]
    rw [List.reverse_append]
    rfl
  · exact fun c hc => List.mem_takeWhile_imp hc
  · exact fun c hc => List.mem_takeWhile_imp (List.mem_reverse.1 hc)

/-- Stripping a string that is whitespace around a middle with
non-whitespace endpoints yields exactly the middle. -/
theorem stripPy_of_decomp (w1 x w2 : List Char)
    (hw1 : ∀ c ∈ w1, pyWhitespace c = true) (hw2 : ∀ c ∈ w2, pyWhitespace c = true)
    (c0 : Char) (t0 : List Char) (hx : x = c0 :: t0) (hhead : pyWhitespace c0 = false)
    (d0 : Char) (hlast : x.getLast? = some d0) (hlastws : pyWhitespace d0 = false) :
    stripPy (w1 ++ x ++ w2) = x := by
  rw [stripPy]
  have h1 : (w1 ++ x ++ w2).dropWhile pyWhitespace = x ++ w2 := by
    rw [List.append_assoc, dropWhile_append_of_all w1 (x ++ w2) hw1, hx, List.cons_append,
      dropWhile_head_false c0 (t0 ++ w2) hhead, ← List.cons_append, ← hx]
  rw [h1, List.reverse_append,
    dropWhile_append_of_all w2.reverse x.reverse (fun c hc => hw2 c (List.mem_reverse.1 hc))]
  have hrev : x.reverse.head? = some d0 := by rw [List.head?_reverse]; exact hlast
  cases hxr : x.reverse with
  | nil => rw [hxr] at hrev; exact Option.noConfusion hrev
  | cons e tr =>
    rw [hxr] at hrev
    rw [List.head?_cons, Option.some.injEq] at hrev
    subst hrev
    rw [dropWhile_head_false e tr hlastws, ← hxr, List.reverse_reverse]

/-- Success of the sign-and-digits step is exactly the sign/digit-group
decomposition. -/
theorem pyIntCore_isSome_iff (t : List Char) :
    (pyIntCore t).isSome = true ↔
      ∃ sgn core, t = sgn ++ core ∧ (sgn = [] ∨ sgn = ['+'] ∨ sgn = ['-'])
        ∧ DigitsU core := by
  constructor
  · intro h
    cases t with
    | nil => rw [pyIntCore] at h; exact Bool.noConfusion h
    | cons c rest =>
      rw [pyIntCore] at h
      by_cases hp : c = '+'
      · subst hp
        rw [if_pos rfl] at h
        cases hv : validDigitGroup rest with
        | false => rw [if_neg (by simp [hv])] at h; exact Bool.noConfusion h
        | true =>
          exact ⟨['+'], rest, rfl, Or.inr (Or.inl rfl), (validDigitGroup_iff rest).1 hv⟩
      · rw [if_neg hp] at h
        by_cases hm : c = '-'
        · subst hm
          rw [if_pos rfl] at h
          cases hv : validDigitGroup rest with
          | false => rw [if_neg (by simp [hv])] at h; exact Bool.noConfusion h
          | true =>
            exact ⟨['-'], rest, rfl, Or.inr (Or.inr rfl), (validDigitGroup_iff rest).1 hv⟩
        · rw [if_neg hm] at h
          cases hv : validDigitGroup (c :: rest) with
          | false => rw [if_neg (by simp [hv])] at h; exact Bool.noConfusion h
          | true =>
            exact ⟨[], c :: rest, rfl, Or.inl rfl, (validDigitGroup_iff (c :: rest)).1 hv⟩
  · rintro ⟨sgn, core, rfl, hsgn, hcore⟩
    have hv : validDigitGroup core = true := (validDigitGroup_iff core).2 hcore
    obtain ⟨d, t0, hcd, hdig⟩ := DigitsU_head hcore
    rcases hsgn with rfl | rfl | rfl
    · rw [List.nil_append, hcd, pyIntCore, if_neg (isDigit_ne_plus hdig),
        if_neg (isDigit_ne_minus hdig), if_pos (by rw [← hcd]; exact hv)]
      rfl
    · rw [List.singleton_append, pyIntCore, if_pos rfl, if_pos hv]
      rfl
    · rw [List.singleton_append, pyIntCore]
      rw [if_neg (by decide), if_pos rfl, if_pos hv]
      rfl

/-- Success of the `int` model is exactly the spec-side shape. -/
theorem pyInt_isSome_iff (l : List Char) : (pyInt l).isSome = true ↔ PyIntShape l := by
  constructor
  · intro h
    rw [pyInt] at h
    obtain ⟨sgn, core, hsc, hsgn, hcore⟩ := (pyIntCore_isSome_iff (stripPy l)).1 h
    obtain ⟨w1, w2, hl, hw1, hw2⟩ := stripPy_split l
    refine ⟨w1, sgn, core, w2, ?_, hw1, hw2, hsgn, hcore⟩
    calc l = w1 ++ stripPy l ++ w2 := hl
    _ = w1 ++ (sgn ++ core) ++ w2 := by rw [hsc]
    _ = w1 ++ sgn ++ core ++ w2 := by rw [List.append_assoc w1 sgn core]
  · rintro ⟨w1, sgn, core, w2, rfl, hw1, hw2, hsgn, hcore⟩
    rw [pyInt]
    obtain ⟨d0, hlast, hdlast⟩ := DigitsU_getLast hcore
    obtain ⟨c0, t0, hcd, hc0dig⟩ := DigitsU_head hcore
    have hx : ∃ ch tl, sgn ++ core = ch :: tl ∧ pyWhitespace ch = false := by
      rcases hsgn with rfl | rfl | rfl
      · exact ⟨c0, t0, by rw [List.nil_append, hcd], isDigit_not_pyWhitespace hc0dig⟩
      · exact ⟨'+', core, List.singleton_append, by decide⟩
      · exact ⟨'-', core, List.singleton_append, by decide⟩
    obtain ⟨ch, tl, hchl, hchws⟩ := hx
    have hglast : (sgn ++ core).getLast? = some d0 := by
      rw [List.getLast?_append_of_ne_nil sgn (DigitsU_ne_nil hcore)]
      exact hlast
    have hassoc : w1 ++ sgn ++ core ++ w2 = w1 ++ (sgn ++ core) ++ w2 := by
      rw [List.append_assoc w1 sgn core]
    rw [hassoc,
      stripPy_of_decomp w1 (sgn ++ core) w2 hw1 hw2 ch tl hchl hchws d0 hglast
        (isDigit_not_pyWhitespace hdlast)]
    exact (pyIntCore_isSome_iff (sgn ++ core)).2 ⟨sgn, core, rfl, hsgn, hcore⟩

/-- Claim C4 (amended): for an integer parser configured with a thousand
separator, a separator character is removed only when immediately
preceded by a digit and followed by at least three digits; parsing then
succeeds exactly on strings that, after this normalization, have the
shape Python `int` accepts — optional surrounding whitespace, an optional
single leading sign, and digits optionally separated by single
underscores. -/
theorem C4_intparser_amended (sep : Char) (s : String) :
    ((IntParser.value ⟨some sep⟩ s).isSome = true ↔ PyIntShape (stripThousandSep sep s.toList))
    ∧ (∀ i, sepMatch sep s.toList i = true →
        (∃ j, i = j + 1 ∧ isDigitAt s.toList j = true)
        ∧ isDigitAt s.toList (i + 1) = true
        ∧ isDigitAt s.toList (i + 2) = true
        ∧ isDigitAt s.toList (i + 3) = true) := by
  constructor
  · exact pyInt_isSome_iff (stripThousandSep sep s.toList)
  · intro i h
    rw [sepMatch.eq_def] at h
    simp only [Bool.and_eq_true] at h
    obtain ⟨⟨⟨⟨-, h0⟩, h1⟩, h2⟩, h3⟩ := h
    refine ⟨?_, h1, h2, h3⟩
    cases i with
    | zero => exact Bool.noConfusion h0
    | succ j => exact ⟨j, rfl, h0⟩

end Secblk
